import Mathlib

/-!
Formal model of the catalog construction engine in
datalad_catalog/webui_generate.py, together with theorems settling the
behavioural claims about it.

The model is a shallow embedding: Python dicts with fixed key sets become
Lean structures, the mutated nested list-of-dict tree becomes an inductive
tree rebuilt functionally, fatal aborts (sys.exit, uncaught exceptions)
become Except.error, and the md5 hash is implemented for real over the
UTF-8 bytes of the input string (32-bit words are Nat values reduced with
explicit mod 2^32).
-/

set_option maxRecDepth 1000000

/-! ## MD5 (hashlib.md5(...).hexdigest() over UTF-8 bytes) -/

def md5mask : Nat := 4294967296

def rotl32 (x n : Nat) : Nat :=
  ((x <<< n) % md5mask) ||| (x >>> (32 - n))

def md5S : List Nat :=
  [7, 12, 17, 22, 7, 12, 17, 22, 7, 12, 17, 22, 7, 12, 17, 22,
   5, 9, 14, 20, 5, 9, 14, 20, 5, 9, 14, 20, 5, 9, 14, 20,
   4, 11, 16, 23, 4, 11, 16, 23, 4, 11, 16, 23, 4, 11, 16, 23,
   6, 10, 15, 21, 6, 10, 15, 21, 6, 10, 15, 21, 6, 10, 15, 21]

def md5K : List Nat :=
  [0xd76aa478, 0xe8c7b756, 0x242070db, 0xc1bdceee,
   0xf57c0faf, 0x4787c62a, 0xa8304613, 0xfd469501,
   0x698098d8, 0x8b44f7af, 0xffff5bb1, 0x895cd7be,
   0x6b901122, 0xfd987193, 0xa679438e, 0x49b40821,
   0xf61e2562, 0xc040b340, 0x265e5a51, 0xe9b6c7aa,
   0xd62f105d, 0x02441453, 0xd8a1e681, 0xe7d3fbc8,
   0x21e1cde6, 0xc33707d6, 0xf4d50d87, 0x455a14ed,
   0xa9e3e905, 0xfcefa3f8, 0x676f02d9, 0x8d2a4c8a,
   0xfffa3942, 0x8771f681, 0x6d9d6122, 0xfde5380c,
   0xa4beea44, 0x4bdecfa9, 0xf6bb4b60, 0xbebfbc70,
   0x289b7ec6, 0xeaa127fa, 0xd4ef3085, 0x04881d05,
   0xd9d4d039, 0xe6db99e5, 0x1fa27cf8, 0xc4ac5665,
   0xf4292244, 0x432aff97, 0xab9423a7, 0xfc93a039,
   0x655b59c3, 0x8f0ccc92, 0xffeff47d, 0x85845dd1,
   0x6fa87e4f, 0xfe2ce6e0, 0xa3014314, 0x4e0811a1,
   0xf7537e82, 0xbd3af235, 0x2ad7d2bb, 0xeb86d391]

/-- little-endian decomposition of a Nat into n bytes -/
def leBytes : Nat → Nat → List Nat
  | 0, _ => []
  | n + 1, x => (x % 256) :: leBytes n (x / 256)

/-- combine 4 bytes little-endian into a 32-bit word -/
def leWord (bs : List Nat) : Nat :=
  match bs with
  | [a, b, c, d] => a + 256 * b + 65536 * c + 16777216 * d
  | _ => 0

def chunkListAux (n : Nat) : Nat → List Nat → List (List Nat)
  | 0, _ => []
  | _, [] => []
  | fuel + 1, l => (l.take n) :: chunkListAux n fuel (l.drop n)

def chunkList (n : Nat) (l : List Nat) : List (List Nat) :=
  chunkListAux n l.length l

def md5F (i b c d : Nat) : Nat × Nat :=
  if i < 16 then ((b &&& c) ||| ((b ^^^ 4294967295) &&& d), i)
  else if i < 32 then ((d &&& b) ||| ((d ^^^ 4294967295) &&& c), (5 * i + 1) % 16)
  else if i < 48 then (b ^^^ c ^^^ d, (3 * i + 5) % 16)
  else (c ^^^ (b ||| (d ^^^ 4294967295)), (7 * i) % 16)

/-- one round of the md5 compression loop; the state is (a, b, c, d) -/
def md5Round (m : List Nat) (st : Nat × Nat × Nat × Nat) (i : Nat) :
    Nat × Nat × Nat × Nat :=
  let (a, b, c, d) := st
  let (f, g) := md5F i b c d
  let f2 := (f + a + (md5K.getD i 0) + (m.getD g 0)) % md5mask
  (d, (b + rotl32 f2 (md5S.getD i 0)) % md5mask, b, c)

def md5Chunk (st : Nat × Nat × Nat × Nat) (chunk : List Nat) :
    Nat × Nat × Nat × Nat :=
  let m := (chunkList 4 chunk).map leWord
  let (a0, b0, c0, d0) := st
  let (a, b, c, d) := (List.range 64).foldl (md5Round m) st
  ((a0 + a) % md5mask, (b0 + b) % md5mask, (c0 + c) % md5mask, (d0 + d) % md5mask)

def md5Pad (msg : List Nat) : List Nat :=
  let len := msg.length
  let padLen := (55 + 64 - len % 64) % 64 + 1
  msg ++ (128 :: List.replicate (padLen - 1) 0) ++ leBytes 8 (8 * len)

def hexDigit (n : Nat) : Char :=
  if n < 10 then Char.ofNat (48 + n) else Char.ofNat (87 + n)

def byteHex (b : Nat) : List Char := [hexDigit (b / 16), hexDigit (b % 16)]

def md5Bytes (msg : List Nat) : List Nat :=
  let st0 := (0x67452301, 0xefcdab89, 0x98badcfe, 0x10325476)
  let chunks := chunkList 64 (md5Pad msg)
  let (a, b, c, d) := chunks.foldl md5Chunk st0
  leBytes 4 a ++ leBytes 4 b ++ leBytes 4 c ++ leBytes 4 d

/-- UTF-8 encoding of one unicode code point -/
def utf8Enc (c : Nat) : List Nat :=
  if c < 128 then [c]
  else if c < 2048 then [192 + c / 64, 128 + c % 64]
  else if c < 65536 then [224 + c / 4096, 128 + (c / 64) % 64, 128 + c % 64]
  else [240 + c / 262144, 128 + (c / 4096) % 64, 128 + (c / 64) % 64, 128 + c % 64]

def strBytes (s : String) : List Nat :=
  (s.data.map (fun ch => utf8Enc ch.toNat)).flatten

/-- hashlib.md5(s.encode('utf-8')).hexdigest() -/
def md5hex (s : String) : String :=
  ⟨((md5Bytes (strBytes s)).map byteHex).flatten⟩

/-! ## The blob key (md5blob, webui_generate.py lines 316-325)

The source joins identifier and version by a dash, optionally appends
"-children", and md5-hashes the result. -/

/-- the string fed to md5 by md5blob -/
def blob_string (identifier version : String) (children : Bool) : String :=
  let s := identifier ++ "-" ++ version
  if children then s ++ "-children" else s

/-- md5blob(identifier, version, children): hex digest used as blob filename stem -/
def md5blob (identifier version : String) (children : Bool) : String :=
  md5hex (blob_string identifier version children)

/-! ## Python str.strip(chars) (used as .strip("datalad:") in core_parse_dataset)

Python str.strip with a string argument removes, from both ends, every
character that belongs to the SET of characters of the argument; it does
not remove a literal prefix. -/

def inChars (chars : String) (c : Char) : Bool := chars.data.contains c

/-- Python s.split(sep) for a one-character separator (both splits of the
source use "/" or os.path.sep, modelled as the posix value "/") -/
def pySplitAux (sep : Char) : List Char → List Char → List String
  | [], acc => [⟨acc.reverse⟩]
  | c :: cs, acc =>
    if c == sep then ⟨acc.reverse⟩ :: pySplitAux sep cs []
    else pySplitAux sep cs (c :: acc)

def pySplit (s : String) (sep : Char) : List String :=
  pySplitAux sep s.data []

/-- Python s.strip(chars) -/
def pyStripSet (s chars : String) : String :=
  let l1 := s.data.dropWhile (inChars chars)
  ⟨(l1.reverse.dropWhile (inChars chars)).reverse⟩

/-! ## The catalog tree

Nodes of the nested "children" structure built by add_update_files and
add_update_subdatasets. The source represents them as dicts with fixed
key sets:
  directory nodes carry exactly the keys type, name, children;
  file nodes carry exactly the keys type, name, contentbytesize, url;
  dataset (subdataset leaf) nodes carry exactly the keys type, name,
  dataset_id, dataset_version. -/

inductive CatNode where
  | directory (name : String) (children : List CatNode)
  | file (name : String) (contentbytesize : Int) (url : String)
  | dataset (name : String) (dataset_id : String) (dataset_version : String)
deriving Repr

/-- the "type" value of a node dict -/
def CatNode.ntype : CatNode → String
  | .directory .. => "directory"
  | .file .. => "file"
  | .dataset .. => "dataset"

/-- the "name" value of a node dict -/
def CatNode.name : CatNode → String
  | .directory n _ => n
  | .file n _ _ => n
  | .dataset n _ _ => n

/-- the "children" value of a directory node; file and dataset node dicts
have no children key in the source and the merge never reads it for them,
so the model returns [] there -/
def CatNode.childrenOf : CatNode → List CatNode
  | .directory _ c => c
  | _ => []

/-! ## Leaf payloads and the merge engine

add_update_files / add_update_subdatasets walk the path segments of one
leaf through the children tree: at a non-final segment they search the
current sibling list for the first node with type "directory" and the
segment as name (descending into it, or appending a fresh empty directory);
at the final segment they search for the first node of the leaf's own type
with the segment as name and, if none exists, append a new leaf node.
When a node of the wanted type and name is found at the final segment the
source records its index and does nothing else. -/

inductive LeafPayload where
  | file (contentbytesize : Int) (url : String)
  | subdataset (dataset_id : String) (dataset_version : String)
deriving Repr

/-- the "type" value the final-segment lookup discriminates on -/
def LeafPayload.kind : LeafPayload → String
  | .file .. => "file"
  | .subdataset .. => "dataset"

/-- the new leaf node appended when no sibling of matching type and name exists -/
def mkLeafNode (name : String) : LeafPayload → CatNode
  | .file b u => .file name b u
  | .subdataset i v => .dataset name i v

/-- final segment: find the first sibling with the leaf's type and name;
if found leave the list unchanged, else append the new leaf node -/
def insertLeafStep (p : LeafPayload) (last : String) : List CatNode → List CatNode
  | [] => [mkLeafNode last p]
  | x :: xs =>
    if x.ntype == p.kind && x.name == last then x :: xs
    else x :: insertLeafStep p last xs

/-- non-final segment: find the first sibling with type "directory" and the
segment as name and rebuild its children with rec; if none exists, append a
new directory whose children are rec applied to the empty list. The source
tests type equality before name equality, so a non-directory sibling never
matches: its clause passes over the node unconditionally. -/
def insertDirStep (s : String) (rec : List CatNode → List CatNode) :
    List CatNode → List CatNode
  | [] => [.directory s (rec [])]
  | .directory n c :: xs =>
    if n == s then .directory n (rec c) :: xs
    else .directory n c :: insertDirStep s rec xs
  | x :: xs => x :: insertDirStep s rec xs

/-- the per-leaf walk of add_update_files / add_update_subdatasets, as a
function of the ordered path segments -/
def mergeLeafSegs (p : LeafPayload) : List String → List CatNode → List CatNode
  | [] => fun l => l
  | [last] => insertLeafStep p last
  | s :: r :: rs => insertDirStep s (mergeLeafSegs p (r :: rs))

/-! ## Metadata records -/

structure FileDist where
  url : Option String := none
deriving Repr, DecidableEq

/-- the parts of extracted_metadata read for file leaves (lines 629-636) -/
structure FileMeta where
  contentbytesize : Option Int := none
  distribution : Option FileDist := none
deriving Repr, DecidableEq

/-- a metadata item of type "file" as consumed by add_update_files -/
structure FileRecord where
  type : String := "file"
  dataset_id : String := ""
  dataset_version : String := ""
  path : String := ""
  extracted_metadata : FileMeta := {}
deriving Repr, DecidableEq

/-- bytesize = -1 unless extracted_metadata has a contentbytesize key -/
def fileBytesize (m : FileMeta) : Int :=
  match m.contentbytesize with
  | some b => b
  | none => -1

/-- url = "" unless extracted_metadata has a distribution entry with a url key -/
def fileUrl (m : FileMeta) : String :=
  match m.distribution with
  | some d =>
    match d.url with
    | some u => u
    | none => ""
  | none => ""

def filePayload (m : FileMeta) : LeafPayload :=
  .file (fileBytesize m) (fileUrl m)

/-- one iteration of the loop of add_update_files (lines 601-646); the path
is split on "/" exactly as file["path"].split("/") -/
def add_update_file (children : List CatNode) (f : FileRecord) : List CatNode :=
  mergeLeafSegs (filePayload f.extracted_metadata) (pySplit f.path '/') children

/-- add_update_files over the children list -/
def add_update_files (children : List CatNode) (files : List FileRecord) :
    List CatNode :=
  files.foldl add_update_file children

/-- an element of the subdatasets list of a dataset object, as produced by
core_parse_dataset (lines 676-681) -/
structure SubDSRecord where
  dataset_id : String := ""
  dataset_version : String := ""
  dataset_path : String := ""
  dirs_from_path : List String := []
deriving Repr, DecidableEq

/-- one iteration of the loop of add_update_subdatasets (lines 556-593) -/
def add_update_subdataset (children : List CatNode) (s : SubDSRecord) :
    List CatNode :=
  mergeLeafSegs (.subdataset s.dataset_id s.dataset_version) s.dirs_from_path children

/-- add_update_subdatasets over the children list -/
def add_update_subdatasets (children : List CatNode) (subs : List SubDSRecord) :
    List CatNode :=
  subs.foldl add_update_subdataset children

/-- a batch leaf: a file record or a subdataset reference -/
inductive Leaf where
  | file (f : FileRecord)
  | subds (s : SubDSRecord)
deriving Repr, DecidableEq

def Leaf.payload : Leaf → LeafPayload
  | .file f => filePayload f.extracted_metadata
  | .subds s => .subdataset s.dataset_id s.dataset_version

def Leaf.segs : Leaf → List String
  | .file f => pySplit f.path '/'
  | .subds s => s.dirs_from_path

/-- merging one leaf (file or subdataset) into a children list -/
def mergeLeaf (l : List CatNode) (lf : Leaf) : List CatNode :=
  mergeLeafSegs lf.payload lf.segs l

/-! ## Reachability: the set of children, by name and kind, under every
directory path of a tree -/

/-- Reaches path k n l: following the chain of directories named by path
from the sibling list l, some sibling of type k named n exists there -/
def Reaches : List String → String → String → List CatNode → Prop
  | [], k, n, l => ∃ nd ∈ l, nd.ntype = k ∧ nd.name = n
  | d :: rest, k, n, l =>
    ∃ nd ∈ l, nd.ntype = "directory" ∧ nd.name = d ∧ Reaches rest k n nd.childrenOf

def reachesDec : (path : List String) → (k n : String) → (l : List CatNode) →
    Decidable (Reaches path k n l)
  | [], _, _, l => List.decidableBEx _ l
  | d :: rest, k, n, l =>
    have : ∀ nd : CatNode,
        Decidable (nd.ntype = "directory" ∧ nd.name = d ∧ Reaches rest k n nd.childrenOf) :=
      fun nd =>
        have := reachesDec rest k n nd.childrenOf
        inferInstance
    List.decidableBEx _ l

instance (path : List String) (k n : String) (l : List CatNode) :
    Decidable (Reaches path k n l) := reachesDec path k n l

/-- the per-sibling test inside Reaches -/
def reachPred : List String → String → String → CatNode → Prop
  | [], k, n, x => x.ntype = k ∧ x.name = n
  | d :: rest, k, n, x => x.ntype = "directory" ∧ x.name = d ∧ Reaches rest k n x.childrenOf

/-- the keys a single leaf-merge can add: every proper prefix of the
segments names a directory, and the full path names a node of the leaf's
kind -/
def Contrib (lk : String) : List String → List String → String → String → Prop
  | [last], [], k, n => lk = k ∧ last = n
  | s :: _ :: _, [], k, n => "directory" = k ∧ s = n
  | s :: r :: rs, d :: prest, k, n => s = d ∧ Contrib lk (r :: rs) prest k n
  | _, _, _, _ => False

/-- the contribution shape of one directory-descent step -/
def dirContrib (s : String) (C : List String → String → String → Prop) :
    List String → String → String → Prop
  | [], k, n => "directory" = k ∧ s = n
  | d :: prest, k, n => s = d ∧ C prest k n

/-! ## The sibling invariant: within any children sequence, no two siblings
share both name and type -/

def siblingKey (nd : CatNode) : String × String := (nd.ntype, nd.name)

def listOk : List CatNode → Prop
  | [] => True
  | x :: xs =>
    (match x with
     | .directory _ c => listOk c
     | _ => True) ∧
    (∀ y ∈ xs, siblingKey y ≠ siblingKey x) ∧ listOk xs

/-- the recursive well-formedness of one node, as used by listOk -/
def nodeOk : CatNode → Prop
  | .directory _ c => listOk c
  | _ => True

/-! ## Dataset-level objects and the translators -/

/-- whether the children value of a dataset object is a genuine list of
nodes or (after reloading a previously written main blob) the hex digest
string of the children blob -/
inductive ChildrenField where
  | nodes (l : List CatNode)
  | ref (h : String)
deriving Repr

/-- the dataset-level object built by process_dataset and written as the
main blob. Keys of the source dict that the engine reads or writes are
structural fields; all other copied string fields live in extra. -/
structure DatasetObj where
  dataset_path : Option String := none
  name : Option String := none
  short_name : Option String := none
  url : Option String := none
  children : Option ChildrenField := none
  subdatasets : Option (List SubDSRecord) := none
  extra : List (String × String) := []
deriving Repr

def extraSet : List (String × String) → String → String → List (String × String)
  | [], k, v => [(k, v)]
  | kv :: rest, k, v =>
    if kv.1 == k then (k, v) :: rest else kv :: extraSet rest k v

def extraGet : List (String × String) → String → Option String
  | [], _ => none
  | kv :: rest, k => if kv.1 == k then some kv.2 else extraGet rest k

/-- dict membership test for a dataset object key -/
def DatasetObj.hasKey (o : DatasetObj) (k : String) : Bool :=
  match k with
  | "dataset_path" => o.dataset_path.isSome
  | "name" => o.name.isSome
  | "short_name" => o.short_name.isSome
  | "url" => o.url.isSome
  | "children" => o.children.isSome
  | "subdatasets" => o.subdatasets.isSome
  | _ => (extraGet o.extra k).isSome

/-- dict assignment of a string value to a dataset object key. The tree
valued keys children and subdatasets are never assigned string values by
the schema tables of the source, so those arms leave the object unchanged. -/
def DatasetObj.setField (o : DatasetObj) (k v : String) : DatasetObj :=
  match k with
  | "dataset_path" => { o with dataset_path := some v }
  | "name" => { o with name := some v }
  | "short_name" => { o with short_name := some v }
  | "url" => { o with url := some v }
  | "children" => o
  | "subdatasets" => o
  | _ => { o with extra := extraSet o.extra k v }

/-- the distribution entries of the "@type": "Dataset" entry of the
extracted_metadata graph. The source raises a KeyError when the entry
named origin lacks a url key, so the model types url as present. -/
structure DistEntry where
  name : Option String := none
  url : String := ""
deriving Repr

/-- an element of the hasPart list (required keys identifier, "@id", name;
the source raises a KeyError when one is missing) -/
structure HasPartEntry where
  identifier : String := ""
  at_id : String := ""
  name : String := ""
deriving Repr

/-- the "@type": "Dataset" entry of extracted_metadata["@graph"] -/
structure GraphDataset where
  distribution : Option (List DistEntry) := none
  hasPart : Option (List HasPartEntry) := none
deriving Repr

/-- a metadata item of type "dataset". String-valued source fields that
the schema tables may copy live in fields; graph_dataset is the first
"@type": "Dataset" entry of extracted_metadata["@graph"] when one exists. -/
structure DsRecord where
  type : String := "dataset"
  dataset_id : String := ""
  dataset_version : String := ""
  extractor_name : Option String := none
  fields : List (String × String) := []
  graph_dataset : Option GraphDataset := none
deriving Repr

/-- reading a string-valued key of the raw source dict -/
def DsRecord.getStr (r : DsRecord) (k : String) : Option String :=
  match k with
  | "type" => some r.type
  | "dataset_id" => some r.dataset_id
  | "dataset_version" => some r.dataset_version
  | "extractor_name" => r.extractor_name
  | _ => extraGet r.fields k

/-- the field-copy loop shared by the parsers: for each (canonical key,
source key) pair of the schema table, copy the source value when present -/
def schemaCopy (schema : List (String × String)) (src : DsRecord)
    (dest : DatasetObj) : DatasetObj :=
  schema.foldl
    (fun o kv =>
      match src.getStr kv.2 with
      | some v => o.setField kv.1 v
      | none => o) dest

/-- the URL population pass shared by core_parse_dataset and
core_parse_file: find the distribution entry named origin of the Dataset
graph entry and copy its url -/
def populateOriginUrl (src : DsRecord) (dest : DatasetObj) : DatasetObj :=
  match src.graph_dataset with
  | some g =>
    match g.distribution with
    | some dist =>
      match dist.find? (fun e => e.name == some "origin") with
      | some origin => { dest with url := some origin.url }
      | none => dest
    | none => dest
  | none => dest

/-- core_dataset_parse (lines 709-723): plain schema copy -/
def core_dataset_parse (schema : List (String × String)) (src : DsRecord)
    (dest : DatasetObj) : DatasetObj :=
  schemaCopy schema src dest

/-- core_parse_dataset (lines 650-683): schema copy, origin URL, then the
subdatasets list expanded from hasPart, with identifier and version put
through Python str.strip("datalad:") and the path split on os.path.sep
(modelled as "/") -/
def core_parse_dataset (schema : List (String × String)) (src : DsRecord)
    (dest : DatasetObj) : DatasetObj :=
  let dest := schemaCopy schema src dest
  let dest := populateOriginUrl src dest
  let dest := { dest with subdatasets := some [] }
  match src.graph_dataset with
  | some g =>
    match g.hasPart with
    | some parts =>
      { dest with
        subdatasets := some (parts.map (fun sub =>
          { dataset_id := pyStripSet sub.identifier "datalad:"
            dataset_version := pyStripSet sub.at_id "datalad:"
            dataset_path := sub.name
            dirs_from_path := pySplit sub.name '/' })) }
    | none => dest
  | none => dest

/-- core_parse_file (lines 685-706): schema copy and origin URL -/
def core_parse_file (schema : List (String × String)) (src : DsRecord)
    (dest : DatasetObj) : DatasetObj :=
  populateOriginUrl src (schemaCopy schema src dest)

/-- the external schema documents loaded from the templates directory.
They are data files of the repository outside the engine source; the model
takes them as parameters. studyminimeta_empty lists canonical fields with
their zero-value defaults. -/
structure Templates where
  core_dataset_schema : List (String × String) := []
  core_schema_for_dataset : List (String × String) := []
  core_schema_for_file : List (String × String) := []
  studyminimeta_empty : List (String × String) := []

/-- parse_metadata_object (lines 433-452). The metalad_studyminimeta
branch drives an elaborate translator over a further external schema file;
no claim exercises it, so the model abstracts it as the function parameter
smParse and every theorem holds for an arbitrary such function. The else
branch prints a report and returns the destination object unchanged. -/
def parse_metadata_object (smParse : DsRecord → DatasetObj → DatasetObj)
    (tmpl : Templates) (src : DsRecord) (dest : DatasetObj) :
    DatasetObj × List String :=
  if src.extractor_name = some "metalad_core_dataset" then
    (core_dataset_parse tmpl.core_dataset_schema src dest, [])
  else if src.extractor_name = some "metalad_studyminimeta" then
    (smParse src dest, [])
  else if src.extractor_name = some "metalad_core" ∧ src.type = "dataset" then
    (core_parse_dataset tmpl.core_schema_for_dataset src dest, [])
  else if src.extractor_name = some "metalad_core" ∧ src.type = "file" then
    (core_parse_file tmpl.core_schema_for_file src dest, [])
  else
    (dest, ["Unrecognized metadata type: DataLad-related"])

/-- add_missing_fields (lines 478-505): derive name from the dataset path
when absent, derive short_name from name when absent (truncating to 30
characters plus "..." when longer than 30), fill keys still missing with
the empty-schema defaults, then default children and subdatasets -/
def add_missing_fields (schema : List (String × String)) (o : DatasetObj) :
    DatasetObj :=
  let o1 :=
    match o.name, o.dataset_path with
    | none, some p => { o with name := some ((pySplit p '/').getLastD "") }
    | _, _ => o
  let o2 :=
    match o1.name, o1.short_name with
    | some n, none =>
      { o1 with short_name := some (if 30 < n.length then (n.take 30) ++ "..." else n) }
    | _, _ => o1
  let o3 := schema.foldl
    (fun acc kv => if acc.hasKey kv.1 then acc else acc.setField kv.1 kv.2) o2
  let o4 := if o3.children.isSome then o3 else { o3 with children := some (.nodes []) }
  if o4.subdatasets.isSome then o4 else { o4 with subdatasets := some [] }

/-! ## The blob store and the ingestion pipeline (datalad_catalog,
lines 166-242) -/

/-- a persisted blob: either a main dataset document or a children document -/
inductive BlobVal where
  | mainDoc (o : DatasetObj)
  | childrenDoc (c : ChildrenField)
deriving Repr

/-- the metadata directory: one JSON file per blob key -/
def Store := List (String × BlobVal)

def storeLookup : List (String × BlobVal) → String → Option BlobVal
  | [], _ => none
  | kv :: rest, k => if kv.1 == k then some kv.2 else storeLookup rest k

def storeInsert : List (String × BlobVal) → String → BlobVal → List (String × BlobVal)
  | [], k, v => [(k, v)]
  | kv :: rest, k, v =>
    if kv.1 == k then (k, v) :: rest else kv :: storeInsert rest k v

/-- an element of the input metadata list -/
inductive MetaItem where
  | ds (r : DsRecord)
  | file (f : FileRecord)
deriving Repr

/-- filter_metadata_objects(metadata, dict(type = "dataset")) -/
def dsItemsOf (metadata : List MetaItem) : List DsRecord :=
  metadata.filterMap (fun it =>
    match it with
    | .ds r => if r.type == "dataset" then some r else none
    | .file _ => none)

/-- filter_metadata_objects(metadata, dict(type = "file", dataset_id = i,
dataset_version = v)) -/
def fileItemsOf (metadata : List MetaItem) (i v : String) : List FileRecord :=
  metadata.filterMap (fun it =>
    match it with
    | .ds _ => none
    | .file f =>
      if f.type == "file" && f.dataset_id == i && f.dataset_version == v
      then some f else none)

/-- add_update_files at the dataset-object level. When the children value
is the reloaded hash string, Python enumerates its characters and raises
TypeError at the first subscript; the loop body never runs when the file
list is empty. -/
def add_update_files_cf : ChildrenField → List FileRecord → Except String ChildrenField
  | cf, [] => .ok cf
  | .nodes l, f :: fs => add_update_files_cf (.nodes (add_update_file l f)) fs
  | .ref _, _ :: _ => .error "TypeError: string indices must be integers"

/-- add_update_subdatasets at the dataset-object level. A subdataset whose
dirs_from_path is empty makes the inner loop body run zero times, so it is
skipped even when the children value is a hash string. -/
def add_update_subdatasets_cf : ChildrenField → List SubDSRecord →
    Except String ChildrenField
  | cf, [] => .ok cf
  | .nodes l, s :: ss => add_update_subdatasets_cf (.nodes (add_update_subdataset l s)) ss
  | .ref h, s :: ss =>
    if s.dirs_from_path.isEmpty then add_update_subdatasets_cf (.ref h) ss
    else .error "TypeError: string indices must be integers"

structure PipeResult where
  store : List (String × BlobVal)
  main_obj : DatasetObj
  children_obj : ChildrenField
  msgs : List String
deriving Repr

/-- datalad_catalog (lines 166-242), without the filesystem setup and the
static UI copy: isolate the source dataset (aborting on several distinct
md5 digests, or with an uncaught IndexError when no dataset item exists),
reload or create the main object, apply the per-item parsers, default the
missing fields, merge subdatasets and files into the children value, then
write the children blob and the main blob (whose children value becomes
the children blob digest). -/
def dataladCatalog (smParse : DsRecord → DatasetObj → DatasetObj)
    (tmpl : Templates) (store : List (String × BlobVal))
    (metadata : List MetaItem) : Except String PipeResult :=
  let datasets := dsItemsOf metadata
  let blobs := datasets.map (fun d => md5blob d.dataset_id d.dataset_version false)
  if 1 < blobs.dedup.length then
    .error "Multiple dataset-level metadata items found"
  else
    match datasets with
    | [] => .error "IndexError: list index out of range"
    | d0 :: _ =>
      let mainFile := md5blob d0.dataset_id d0.dataset_version false ++ ".json"
      let prev : DatasetObj :=
        match storeLookup store mainFile with
        | some (.mainDoc o) => o
        | some (.childrenDoc c) => { children := some c }
        | none => {}
      let pm := datasets.foldl
        (fun (acc : DatasetObj × List String) it =>
          match it.extractor_name with
          | some _ =>
            let r := parse_metadata_object smParse tmpl it acc.1
            (r.1, acc.2 ++ r.2)
          | none => (acc.1, acc.2 ++ ["Unrecognized metadata type: non-DataLad"]))
        (prev, [])
      let newObj := add_missing_fields tmpl.studyminimeta_empty pm.1
      let subs := newObj.subdatasets.getD []
      let cf0 := newObj.children.getD (.nodes [])
      let step1 := if subs.isEmpty then .ok cf0 else add_update_subdatasets_cf cf0 subs
      match step1 with
      | .error e => .error e
      | .ok cf1 =>
        let files := fileItemsOf metadata d0.dataset_id d0.dataset_version
        match add_update_files_cf cf1 files with
        | .error e => .error e
        | .ok cf2 =>
          let chHash := md5blob d0.dataset_id d0.dataset_version true
          let store1 := storeInsert store (chHash ++ ".json") (.childrenDoc cf2)
          let mainObj := { newObj with children := some (.ref chHash) }
          let store2 := storeInsert store1 mainFile (.mainDoc mainObj)
          .ok ⟨store2, mainObj, cf2, pm.2⟩

structure StatusRecord where
  action : String
  status : String
deriving Repr, DecidableEq

/-- the result records yielded by the command wrapper (lines 140-163): one
ok record after datalad_catalog returns; a fatal abort inside
datalad_catalog ends the process before any record is yielded -/
def catalogStatuses (smParse : DsRecord → DatasetObj → DatasetObj)
    (tmpl : Templates) (store : List (String × BlobVal))
    (metadata : List MetaItem) : List StatusRecord :=
  match dataladCatalog smParse tmpl store metadata with
  | .ok _ => [⟨"catalog", "ok"⟩]
  | .error _ => []

/-! ## Concrete inputs used to evaluate the model -/

/-- a trivial stand-in for the unexercised studyminimeta translator
parameter when the model is run on concrete batches that never reach it -/
def smId : DsRecord → DatasetObj → DatasetObj := fun _ o => o

/-- one dataset record with an unrecognized extractor and one file record -/
def c1_batch : List MetaItem :=
  [.ds { dataset_id := "d1", dataset_version := "v1", extractor_name := some "unknown_x" },
   .file { dataset_id := "d1", dataset_version := "v1", path := "f.txt" }]

/-- the store left behind by the first ingestion of c1_batch -/
def c1_store1 : List (String × BlobVal) :=
  match dataladCatalog smId {} [] c1_batch with
  | .ok r => r.store
  | .error _ => []

/-- two dataset records whose (id, version) pairs differ but whose
id-dash-version concatenations coincide -/
def c4_batch : List MetaItem :=
  [.ds { dataset_id := "a", dataset_version := "b-c", extractor_name := some "u1" },
   .ds { dataset_id := "a-b", dataset_version := "c", extractor_name := some "u2" }]

/-- two dataset records with genuinely different digests -/
def c4d_batch : List MetaItem :=
  [.ds { dataset_id := "a", dataset_version := "b", extractor_name := some "u1" },
   .ds { dataset_id := "c", dataset_version := "d", extractor_name := some "u2" }]

/-- a dataset record with an unrecognized extractor name -/
def c8_rec : DsRecord :=
  { dataset_id := "d1", dataset_version := "v1",
    extractor_name := some "totally_unknown" }

/-- a batch holding only the record with the unrecognized extractor -/
def c8_batch : List MetaItem := [.ds c8_rec]

/-- a dataset record whose hasPart list carries one datalad-prefixed
subdataset reference -/
def c6_src : DsRecord :=
  { graph_dataset := some
      { hasPart := some
          [{ identifier := "datalad:abc", at_id := "datalad:v1", name := "subds" }] } }

/-! ## Helper lemmas about Reaches and the merge engine -/

theorem reaches_iff_exists (path : List String) (k n : String) (l : List CatNode) :
    Reaches path k n l ↔ ∃ nd ∈ l, reachPred path k n nd := by
  cases path <;> rfl

theorem reaches_nil (path : List String) (k n : String) : ¬ Reaches path k n [] := by
  rw [reaches_iff_exists]; simp

theorem reaches_cons (path : List String) (k n : String) (x : CatNode)
    (l : List CatNode) :
    Reaches path k n (x :: l) ↔ reachPred path k n x ∨ Reaches path k n l := by
  rw [reaches_iff_exists, reaches_iff_exists]
  simp

theorem ntype_mkLeafNode (last : String) (p : LeafPayload) :
    (mkLeafNode last p).ntype = p.kind := by
  cases p <;> rfl

theorem name_mkLeafNode (last : String) (p : LeafPayload) :
    (mkLeafNode last p).name = last := by
  cases p <;> rfl

theorem kind_ne_directory (p : LeafPayload) : p.kind ≠ "directory" := by
  cases p <;> simp [LeafPayload.kind]

theorem reachPred_mkLeafNode (path : List String) (k n last : String)
    (p : LeafPayload) :
    reachPred path k n (mkLeafNode last p) ↔ (path = [] ∧ p.kind = k ∧ last = n) := by
  cases path with
  | nil => simp [reachPred, ntype_mkLeafNode, name_mkLeafNode]
  | cons d rest =>
    simp [reachPred, ntype_mkLeafNode]
    intro h
    exact absurd h (kind_ne_directory p)

theorem reaches_insertLeafStep (p : LeafPayload) (last : String)
    (path : List String) (k n : String) : ∀ l : List CatNode,
    Reaches path k n (insertLeafStep p last l) ↔
      Reaches path k n l ∨ Contrib p.kind [last] path k n := by
  intro l
  induction l with
  | nil =>
    rw [insertLeafStep, reaches_cons, reachPred_mkLeafNode]
    cases path with
    | nil => simp [Contrib, reaches_nil]
    | cons d rest => simp [Contrib, reaches_nil]
  | cons x xs ih =>
    rw [insertLeafStep]
    by_cases hx : (x.ntype == p.kind && x.name == last) = true
    · rw [if_pos hx]
      simp only [Bool.and_eq_true, beq_iff_eq] at hx
      cases path with
      | nil =>
        rw [reaches_cons]
        simp only [Contrib]
        constructor
        · intro h; exact Or.inl h
        · rintro (h | ⟨hk, hn⟩)
          · exact h
          · exact Or.inl ⟨hx.1.trans hk, hx.2.trans hn⟩
      | cons d rest =>
        simp only [Contrib, or_false]
    · rw [if_neg hx]
      rw [reaches_cons, reaches_cons, ih]
      tauto

theorem reaches_insertDirStep (s : String) (rec : List CatNode → List CatNode)
    (C : List String → String → String → Prop)
    (hrec : ∀ path k n c, Reaches path k n (rec c) ↔ Reaches path k n c ∨ C path k n)
    (path : List String) (k n : String) : ∀ l : List CatNode,
    Reaches path k n (insertDirStep s rec l) ↔
      Reaches path k n l ∨ dirContrib s C path k n := by
  intro l
  induction l with
  | nil =>
    rw [insertDirStep, reaches_cons]
    cases path with
    | nil =>
      simp [reachPred, CatNode.ntype, CatNode.name, dirContrib, reaches_nil]
    | cons d prest =>
      simp [reachPred, CatNode.ntype, CatNode.name, CatNode.childrenOf, dirContrib,
            hrec, reaches_nil]
  | cons x xs ih =>
    cases x with
    | directory nm c =>
      by_cases hn : nm = s
      · subst hn
        rw [show insertDirStep nm rec (CatNode.directory nm c :: xs)
              = CatNode.directory nm (rec c) :: xs by
            rw [insertDirStep, if_pos (by simp)]]
        rw [reaches_cons, reaches_cons]
        cases path with
        | nil =>
          simp only [reachPred, CatNode.ntype, CatNode.name, dirContrib]
          tauto
        | cons d prest =>
          simp only [reachPred, CatNode.ntype, CatNode.name, CatNode.childrenOf,
                     dirContrib, hrec, eq_self_iff_true, true_and]
          tauto
      · rw [show insertDirStep s rec (CatNode.directory nm c :: xs)
              = CatNode.directory nm c :: insertDirStep s rec xs by
            rw [insertDirStep, if_neg (by simpa using hn)]]
        rw [reaches_cons, reaches_cons, ih]
        cases path with
        | nil =>
          simp only [dirContrib]
          tauto
        | cons d prest =>
          simp only [reachPred, CatNode.ntype, CatNode.name, CatNode.childrenOf,
                     dirContrib]
          tauto
    | file nm b u =>
      rw [show insertDirStep s rec (CatNode.file nm b u :: xs)
            = CatNode.file nm b u :: insertDirStep s rec xs from rfl]
      rw [reaches_cons, reaches_cons, ih]
      tauto
    | dataset nm i v =>
      rw [show insertDirStep s rec (CatNode.dataset nm i v :: xs)
            = CatNode.dataset nm i v :: insertDirStep s rec xs from rfl]
      rw [reaches_cons, reaches_cons, ih]
      tauto

theorem contrib_cons_cons (lk s r : String) (rs path : List String) (k n : String) :
    Contrib lk (s :: r :: rs) path k n ↔ dirContrib s (Contrib lk (r :: rs)) path k n := by
  cases path <;> rfl

/-- the central accounting lemma for one leaf-merge: a key is reachable
after the merge exactly when it was reachable before or the leaf's path
contributes it -/
theorem reaches_mergeLeafSegs (p : LeafPayload) :
    ∀ (segs path : List String) (k n : String) (l : List CatNode),
    Reaches path k n (mergeLeafSegs p segs l) ↔
      Reaches path k n l ∨ Contrib p.kind segs path k n := by
  intro segs
  induction segs with
  | nil =>
    intro path k n l
    cases path <;> simp [mergeLeafSegs, Contrib]
  | cons s rest ih =>
    cases rest with
    | nil =>
      intro path k n l
      simp only [mergeLeafSegs]
      exact reaches_insertLeafStep p s path k n l
    | cons r rs =>
      intro path k n l
      have h := reaches_insertDirStep s (mergeLeafSegs p (r :: rs))
        (Contrib p.kind (r :: rs)) (fun path k n c => ih path k n c) path k n l
      simp only [mergeLeafSegs]
      rw [contrib_cons_cons]
      exact h

theorem reaches_mergeLeaf (lf : Leaf) (path : List String) (k n : String)
    (l : List CatNode) :
    Reaches path k n (mergeLeaf l lf) ↔
      Reaches path k n l ∨ Contrib lf.payload.kind lf.segs path k n :=
  reaches_mergeLeafSegs lf.payload lf.segs path k n l

/-- the accounting lemma for a whole batch: a key is reachable after
merging a batch exactly when it was reachable before or some leaf of the
batch contributes it; the right side does not depend on the batch order -/
theorem reaches_foldl_mergeLeaf :
    ∀ (batch : List Leaf) (l : List CatNode) (path : List String) (k n : String),
    Reaches path k n (batch.foldl mergeLeaf l) ↔
      Reaches path k n l ∨ ∃ lf ∈ batch, Contrib lf.payload.kind lf.segs path k n := by
  intro batch
  induction batch with
  | nil => intro l path k n; simp
  | cons a t ih =>
    intro l path k n
    rw [List.foldl_cons, ih, reaches_mergeLeaf]
    simp only [List.mem_cons]
    constructor
    · rintro ((h | hc) | ⟨lf, hlf, hcl⟩)
      · exact Or.inl h
      · exact Or.inr ⟨a, Or.inl rfl, hc⟩
      · exact Or.inr ⟨lf, Or.inr hlf, hcl⟩
    · rintro (h | ⟨lf, (rfl | hlf), hcl⟩)
      · exact Or.inl (Or.inl h)
      · exact Or.inl (Or.inr hcl)
      · exact Or.inr ⟨lf, hlf, hcl⟩

/-! ## Helper lemmas about the sibling invariant -/

theorem listOk_nil : listOk [] := by simp [listOk]

theorem siblingKey_mkLeafNode (last : String) (p : LeafPayload) :
    siblingKey (mkLeafNode last p) = (p.kind, last) := by
  cases p <;> rfl

theorem nodeOk_mkLeafNode (last : String) (p : LeafPayload) :
    nodeOk (mkLeafNode last p) := by
  cases p <;> simp [nodeOk, mkLeafNode]

theorem listOk_cons (x : CatNode) (xs : List CatNode) :
    listOk (x :: xs) ↔
      nodeOk x ∧ (∀ y ∈ xs, siblingKey y ≠ siblingKey x) ∧ listOk xs := by
  cases x <;> simp [listOk, nodeOk]

theorem keyMem_insertLeafStep (p : LeafPayload) (last : String) :
    ∀ l y, y ∈ insertLeafStep p last l →
      siblingKey y ∈ l.map siblingKey ∨ siblingKey y = (p.kind, last) := by
  intro l
  induction l with
  | nil =>
    intro y hy
    rw [insertLeafStep] at hy
    rcases List.mem_singleton.mp hy with rfl
    exact Or.inr (siblingKey_mkLeafNode last p)
  | cons x xs ih =>
    intro y hy
    rw [insertLeafStep] at hy
    by_cases ht : (x.ntype == p.kind && x.name == last) = true
    · rw [if_pos ht] at hy
      exact Or.inl (List.mem_map_of_mem siblingKey hy)
    · rw [if_neg ht] at hy
      rcases List.mem_cons.mp hy with rfl | hy2
      · exact Or.inl (by simp)
      · rcases ih y hy2 with hk | hk
        · exact Or.inl (by simp only [List.map_cons, List.mem_cons]; exact Or.inr hk)
        · exact Or.inr hk

theorem keyMem_insertDirStep (s : String) (rec : List CatNode → List CatNode) :
    ∀ l y, y ∈ insertDirStep s rec l →
      siblingKey y ∈ l.map siblingKey ∨ siblingKey y = ("directory", s) := by
  intro l
  induction l with
  | nil =>
    intro y hy
    rw [insertDirStep] at hy
    rcases List.mem_singleton.mp hy with rfl
    exact Or.inr rfl
  | cons x xs ih =>
    intro y hy
    cases x with
    | directory nm c =>
      by_cases hn : nm = s
      · subst hn
        rw [show insertDirStep nm rec (CatNode.directory nm c :: xs)
              = CatNode.directory nm (rec c) :: xs by
            rw [insertDirStep, if_pos (by simp)]] at hy
        rcases List.mem_cons.mp hy with rfl | hy2
        · exact Or.inl (by simp [siblingKey, CatNode.ntype, CatNode.name])
        · refine Or.inl ?_
          simp only [List.map_cons, List.mem_cons]
          exact Or.inr (List.mem_map_of_mem siblingKey hy2)
      · rw [show insertDirStep s rec (CatNode.directory nm c :: xs)
              = CatNode.directory nm c :: insertDirStep s rec xs by
            rw [insertDirStep, if_neg (by simpa using hn)]] at hy
        rcases List.mem_cons.mp hy with rfl | hy2
        · exact Or.inl (by simp)
        · rcases ih y hy2 with hk | hk
          · exact Or.inl (by simp only [List.map_cons, List.mem_cons]; exact Or.inr hk)
          · exact Or.inr hk
    | file nm b u =>
      rw [show insertDirStep s rec (CatNode.file nm b u :: xs)
            = CatNode.file nm b u :: insertDirStep s rec xs from rfl] at hy
      rcases List.mem_cons.mp hy with rfl | hy2
      · exact Or.inl (by simp)
      · rcases ih y hy2 with hk | hk
        · exact Or.inl (by simp only [List.map_cons, List.mem_cons]; exact Or.inr hk)
        · exact Or.inr hk
    | dataset nm i v =>
      rw [show insertDirStep s rec (CatNode.dataset nm i v :: xs)
            = CatNode.dataset nm i v :: insertDirStep s rec xs from rfl] at hy
      rcases List.mem_cons.mp hy with rfl | hy2
      · exact Or.inl (by simp)
      · rcases ih y hy2 with hk | hk
        · exact Or.inl (by simp only [List.map_cons, List.mem_cons]; exact Or.inr hk)
        · exact Or.inr hk

theorem listOk_insertLeafStep (p : LeafPayload) (last : String) :
    ∀ l, listOk l → listOk (insertLeafStep p last l) := by
  intro l
  induction l with
  | nil =>
    intro _
    rw [insertLeafStep, listOk_cons]
    exact ⟨nodeOk_mkLeafNode last p, by simp, listOk_nil⟩
  | cons x xs ih =>
    intro h
    rw [listOk_cons] at h
    obtain ⟨hx, hdist, hxs⟩ := h
    rw [insertLeafStep]
    by_cases ht : (x.ntype == p.kind && x.name == last) = true
    · rw [if_pos ht, listOk_cons]
      exact ⟨hx, hdist, hxs⟩
    · rw [if_neg ht, listOk_cons]
      refine ⟨hx, ?_, ih hxs⟩
      intro y hy
      rcases keyMem_insertLeafStep p last xs y hy with hk | hk
      · rcases List.mem_map.mp hk with ⟨z, hz, hzk⟩
        rw [← hzk]
        exact hdist z hz
      · rw [hk]
        intro heq
        have h1 : x.ntype = p.kind := by
          have := congrArg Prod.fst heq
          simpa [siblingKey] using this.symm
        have h2 : x.name = last := by
          have := congrArg Prod.snd heq
          simpa [siblingKey] using this.symm
        simp [h1, h2] at ht

theorem listOk_insertDirStep (s : String) (rec : List CatNode → List CatNode)
    (hrec : ∀ c, listOk c → listOk (rec c)) :
    ∀ l, listOk l → listOk (insertDirStep s rec l) := by
  intro l
  induction l with
  | nil =>
    intro _
    rw [insertDirStep, listOk_cons]
    refine ⟨?_, by simp, listOk_nil⟩
    exact hrec [] listOk_nil
  | cons x xs ih =>
    intro h
    rw [listOk_cons] at h
    obtain ⟨hx, hdist, hxs⟩ := h
    cases x with
    | directory nm c =>
      by_cases hn : nm = s
      · subst hn
        rw [show insertDirStep nm rec (CatNode.directory nm c :: xs)
              = CatNode.directory nm (rec c) :: xs by
            rw [insertDirStep, if_pos (by simp)]]
        rw [listOk_cons]
        refine ⟨?_, ?_, hxs⟩
        · exact hrec c hx
        · intro y hy
          have := hdist y hy
          simpa [siblingKey, CatNode.ntype, CatNode.name] using this
      · rw [show insertDirStep s rec (CatNode.directory nm c :: xs)
              = CatNode.directory nm c :: insertDirStep s rec xs by
            rw [insertDirStep, if_neg (by simpa using hn)]]
        rw [listOk_cons]
        refine ⟨hx, ?_, ih hxs⟩
        intro y hy
        rcases keyMem_insertDirStep s rec xs y hy with hk | hk
        · rcases List.mem_map.mp hk with ⟨z, hz, hzk⟩
          rw [← hzk]
          exact hdist z hz
        · rw [hk]
          simp only [siblingKey, CatNode.ntype, CatNode.name, ne_eq, Prod.mk.injEq,
                     true_and]
          exact fun hcontr => hn hcontr.symm
    | file nm b u =>
      rw [show insertDirStep s rec (CatNode.file nm b u :: xs)
            = CatNode.file nm b u :: insertDirStep s rec xs from rfl]
      rw [listOk_cons]
      refine ⟨hx, ?_, ih hxs⟩
      intro y hy
      rcases keyMem_insertDirStep s rec xs y hy with hk | hk
      · rcases List.mem_map.mp hk with ⟨z, hz, hzk⟩
        rw [← hzk]
        exact hdist z hz
      · rw [hk]
        simp [siblingKey, CatNode.ntype, CatNode.name]
    | dataset nm i v =>
      rw [show insertDirStep s rec (CatNode.dataset nm i v :: xs)
            = CatNode.dataset nm i v :: insertDirStep s rec xs from rfl]
      rw [listOk_cons]
      refine ⟨hx, ?_, ih hxs⟩
      intro y hy
      rcases keyMem_insertDirStep s rec xs y hy with hk | hk
      · rcases List.mem_map.mp hk with ⟨z, hz, hzk⟩
        rw [← hzk]
        exact hdist z hz
      · rw [hk]
        simp [siblingKey, CatNode.ntype, CatNode.name]

theorem listOk_mergeLeafSegs (p : LeafPayload) :
    ∀ segs l, listOk l → listOk (mergeLeafSegs p segs l) := by
  intro segs
  induction segs with
  | nil => intro l h; simpa [mergeLeafSegs] using h
  | cons s rest ih =>
    cases rest with
    | nil =>
      intro l h
      simp only [mergeLeafSegs]
      exact listOk_insertLeafStep p s l h
    | cons r rs =>
      intro l h
      simp only [mergeLeafSegs]
      exact listOk_insertDirStep s _ (fun c hc => ih c hc) l h

theorem listOk_foldl_mergeLeaf :
    ∀ (batch : List Leaf) (l : List CatNode), listOk l →
      listOk (batch.foldl mergeLeaf l) := by
  intro batch
  induction batch with
  | nil => intro l h; simpa using h
  | cons a t ih =>
    intro l h
    rw [List.foldl_cons]
    exact ih _ (listOk_mergeLeafSegs a.payload a.segs l h)

/-! ## Found / not-found behaviour at the final path segment -/

theorem insertLeafStep_found (p : LeafPayload) (last : String) :
    ∀ l, (∃ x ∈ l, x.ntype = p.kind ∧ x.name = last) →
      insertLeafStep p last l = l := by
  intro l
  induction l with
  | nil => rintro ⟨x, hx, _⟩; exact absurd hx (List.not_mem_nil x)
  | cons x xs ih =>
    rintro ⟨z, hz, hzk, hzn⟩
    rw [insertLeafStep]
    by_cases ht : (x.ntype == p.kind && x.name == last) = true
    · rw [if_pos ht]
    · rw [if_neg ht]
      congr 1
      apply ih
      rcases List.mem_cons.mp hz with rfl | hz2
      · exact absurd (by simp [hzk, hzn]) ht
      · exact ⟨z, hz2, hzk, hzn⟩

theorem insertLeafStep_notfound (p : LeafPayload) (last : String) :
    ∀ l, (∀ x ∈ l, ¬(x.ntype = p.kind ∧ x.name = last)) →
      insertLeafStep p last l = l ++ [mkLeafNode last p] := by
  intro l
  induction l with
  | nil => intro _; rfl
  | cons x xs ih =>
    intro h
    rw [insertLeafStep]
    have hx := h x (List.mem_cons_self x xs)
    have ht : ¬((x.ntype == p.kind && x.name == last) = true) := by
      simpa [Bool.and_eq_true, beq_iff_eq] using hx
    rw [if_neg ht, List.cons_append]
    congr 1
    exact ih (fun z hz => h z (List.mem_cons_of_mem x hz))

/-! ## Helper lemmas about dataset-object defaulting -/

theorem setField_children (o : DatasetObj) (k v : String) :
    (o.setField k v).children = o.children := by
  unfold DatasetObj.setField
  split <;> rfl

theorem setField_subdatasets (o : DatasetObj) (k v : String) :
    (o.setField k v).subdatasets = o.subdatasets := by
  unfold DatasetObj.setField
  split <;> rfl

theorem setField_name_of_ne (o : DatasetObj) (k v : String) (h : k ≠ "name") :
    (o.setField k v).name = o.name := by
  unfold DatasetObj.setField
  split <;> simp_all

theorem setField_short_name_of_ne (o : DatasetObj) (k v : String)
    (h : k ≠ "short_name") : (o.setField k v).short_name = o.short_name := by
  unfold DatasetObj.setField
  split <;> simp_all

theorem foldl_defaults_children (schema : List (String × String)) :
    ∀ o : DatasetObj,
      (schema.foldl
        (fun acc kv => if acc.hasKey kv.1 then acc else acc.setField kv.1 kv.2)
        o).children = o.children := by
  induction schema with
  | nil => intro o; rfl
  | cons kv rest ih =>
    intro o
    rw [List.foldl_cons, ih]
    by_cases h : (o.hasKey kv.1) = true
    · rw [if_pos h]
    · rw [if_neg h, setField_children]

theorem foldl_defaults_subdatasets (schema : List (String × String)) :
    ∀ o : DatasetObj,
      (schema.foldl
        (fun acc kv => if acc.hasKey kv.1 then acc else acc.setField kv.1 kv.2)
        o).subdatasets = o.subdatasets := by
  induction schema with
  | nil => intro o; rfl
  | cons kv rest ih =>
    intro o
    rw [List.foldl_cons, ih]
    by_cases h : (o.hasKey kv.1) = true
    · rw [if_pos h]
    · rw [if_neg h, setField_subdatasets]

theorem foldl_defaults_name (schema : List (String × String)) :
    ∀ (o : DatasetObj) (x : String), o.name = some x →
      (schema.foldl
        (fun acc kv => if acc.hasKey kv.1 then acc else acc.setField kv.1 kv.2)
        o).name = some x := by
  induction schema with
  | nil => intro o x h; exact h
  | cons kv rest ih =>
    intro o x h
    rw [List.foldl_cons]
    by_cases hk : (o.hasKey kv.1) = true
    · rw [if_pos hk]; exact ih o x h
    · rw [if_neg hk]
      apply ih
      by_cases hkey : kv.1 = "name"
      · exact absurd (by rw [hkey]; simp [DatasetObj.hasKey, h]) hk
      · rw [setField_name_of_ne o kv.1 kv.2 hkey]; exact h

theorem foldl_defaults_short_name (schema : List (String × String)) :
    ∀ (o : DatasetObj) (x : String), o.short_name = some x →
      (schema.foldl
        (fun acc kv => if acc.hasKey kv.1 then acc else acc.setField kv.1 kv.2)
        o).short_name = some x := by
  induction schema with
  | nil => intro o x h; exact h
  | cons kv rest ih =>
    intro o x h
    rw [List.foldl_cons]
    by_cases hk : (o.hasKey kv.1) = true
    · rw [if_pos hk]; exact ih o x h
    · rw [if_neg hk]
      apply ih
      by_cases hkey : kv.1 = "short_name"
      · exact absurd (by rw [hkey]; simp [DatasetObj.hasKey, h]) hk
      · rw [setField_short_name_of_ne o kv.1 kv.2 hkey]; exact h

theorem add_missing_fields_empty_children (schema : List (String × String)) :
    (add_missing_fields schema {}).children = some (.nodes []) := by
  simp [add_missing_fields, foldl_defaults_children, foldl_defaults_subdatasets]

theorem add_missing_fields_empty_subdatasets (schema : List (String × String)) :
    (add_missing_fields schema {}).subdatasets = some [] := by
  simp [add_missing_fields, foldl_defaults_children, foldl_defaults_subdatasets]

/-! ## Claim theorems -/

/-- Claim C2 counterexample: merging a file record whose path names an
existing file sibling with a different recorded content byte size leaves
the existing node untouched; the node keeps byte size 3 even though the
incoming record carries byte size 5, so no scalar attribute is updated in
place. -/
theorem C2_counterexample :
    add_update_file [CatNode.file "a.txt" 3 "u"]
      { dataset_id := "d", dataset_version := "v", path := "a.txt",
        extracted_metadata := { contentbytesize := some 5 } }
      = [CatNode.file "a.txt" 3 "u"] ∧
    fileBytesize { contentbytesize := some 5 } = 5 ∧ (5 : Int) ≠ 3 :=
  ⟨rfl, rfl, by decide⟩

/-- Claim C2 (amended): when the merge reaches the final path segment and a
sibling of the leaf's matching kind with the same name exists, it leaves
the children list entirely unchanged — the sibling keeps its position, its
own children and its scalar attributes, which are NOT updated; when no
such sibling exists it appends a new leaf node at the end. -/
theorem C2_final_segment (p : LeafPayload) (last : String) (l : List CatNode) :
    ((∃ x ∈ l, x.ntype = p.kind ∧ x.name = last) →
      mergeLeafSegs p [last] l = l) ∧
    ((∀ x ∈ l, ¬(x.ntype = p.kind ∧ x.name = last)) →
      mergeLeafSegs p [last] l = l ++ [mkLeafNode last p]) := by
  constructor
  · intro h
    simp only [mergeLeafSegs]
    exact insertLeafStep_found p last l h
  · intro h
    simp only [mergeLeafSegs]
    exact insertLeafStep_notfound p last l h

theorem C2_final_segment_witness :
    mergeLeafSegs (.file 7 "w") ["a.txt"] [CatNode.file "a.txt" 3 "u"]
      = [CatNode.file "a.txt" 3 "u"] ∧
    mergeLeafSegs (.file 7 "w") ["b.txt"] [CatNode.file "a.txt" 3 "u"]
      = [CatNode.file "a.txt" 3 "u", CatNode.file "b.txt" 7 "w"] := by
  refine ⟨(C2_final_segment (.file 7 "w") "a.txt" _).1
            ⟨CatNode.file "a.txt" 3 "u", by simp, rfl, rfl⟩,
          ?_⟩
  have h := (C2_final_segment (.file 7 "w") "b.txt"
    [CatNode.file "a.txt" 3 "u"]).2 ?_
  · exact h
  · intro x hx
    rcases List.mem_singleton.mp hx with rfl
    simp [CatNode.ntype, CatNode.name, LeafPayload.kind]

/-- Claim C3: for a batch of file/subdataset leaves with pairwise disjoint
paths, merging the batch into the same starting tree in any permutation
yields the same final tree shape: under every chain of directory names,
the same set of children by name and kind is reachable; sibling array
order is the only possible difference. -/
theorem C3_order_independence (batch batch2 : List Leaf)
    (hperm : batch.Perm batch2)
    (_hdisj : batch.Pairwise (fun a b => a.segs ≠ b.segs))
    (l : List CatNode) (path : List String) (k n : String) :
    Reaches path k n (batch.foldl mergeLeaf l) ↔
      Reaches path k n (batch2.foldl mergeLeaf l) := by
  rw [reaches_foldl_mergeLeaf, reaches_foldl_mergeLeaf]
  constructor
  · rintro (h | ⟨lf, hm, hc⟩)
    · exact Or.inl h
    · exact Or.inr ⟨lf, hperm.mem_iff.mp hm, hc⟩
  · rintro (h | ⟨lf, hm, hc⟩)
    · exact Or.inl h
    · exact Or.inr ⟨lf, hperm.mem_iff.mpr hm, hc⟩

theorem C3_order_independence_witness :
    Reaches ["x"] "file" "y.txt"
      ([Leaf.file { path := "x/y.txt" }, Leaf.file { path := "x/z.txt" }].foldl
        mergeLeaf [])
    ↔ Reaches ["x"] "file" "y.txt"
      ([Leaf.file { path := "x/z.txt" }, Leaf.file { path := "x/y.txt" }].foldl
        mergeLeaf []) :=
  C3_order_independence _ _ (by decide) (by decide) [] ["x"] "file" "y.txt"

/-- Claim C7: every leaf-merge preserves the invariant that no two
siblings of any children sequence share both the same name and the same
type, and the lookups discriminate on type: after merging a file leaf
whose single path segment equals the name of an existing directory, the
directory and the new file node coexist as two distinct siblings. -/
theorem C7_sibling_invariant (l : List CatNode) :
    (∀ batch : List Leaf, listOk l → listOk (batch.foldl mergeLeaf l)) ∧
    (∀ (f : FileRecord) (s : String), pySplit f.path '/' = [s] →
      Reaches [] "directory" s l →
      Reaches [] "directory" s (add_update_file l f) ∧
      Reaches [] "file" s (add_update_file l f)) := by
  constructor
  · intro batch h
    exact listOk_foldl_mergeLeaf batch l h
  · intro f s hp hd
    unfold add_update_file
    rw [hp]
    constructor
    · rw [reaches_mergeLeafSegs]
      exact Or.inl hd
    · rw [reaches_mergeLeafSegs]
      exact Or.inr ⟨rfl, rfl⟩

theorem C7_sibling_invariant_witness :
    listOk ([Leaf.file { path := "x" }].foldl mergeLeaf
      [CatNode.directory "x" []]) ∧
    Reaches [] "directory" "x"
      (add_update_file [CatNode.directory "x" []] { path := "x" }) ∧
    Reaches [] "file" "x"
      (add_update_file [CatNode.directory "x" []] { path := "x" }) := by
  have h := C7_sibling_invariant [CatNode.directory "x" []]
  have h1 := h.1 [Leaf.file { path := "x" }] (by simp [listOk])
  have h2 := h.2 { path := "x" } "x" rfl (by decide)
  exact ⟨h1, h2.1, h2.2⟩

/-- Claim C10: when the merge creates a new file leaf node, missing
metadata gets fixed fallbacks: content byte size -1 when extracted_metadata
has no contentbytesize key, url "" when it has no distribution entry with
a url key; the appended node is a file node carrying exactly the keys
type, name, contentbytesize and url. -/
theorem C10_new_file_leaf (f : FileRecord) (l : List CatNode) (last : String)
    (hp : pySplit f.path '/' = [last])
    (habs : ∀ x ∈ l, ¬(x.ntype = "file" ∧ x.name = last)) :
    add_update_file l f
      = l ++ [CatNode.file last (fileBytesize f.extracted_metadata)
                (fileUrl f.extracted_metadata)] ∧
    (f.extracted_metadata.contentbytesize = none →
      fileBytesize f.extracted_metadata = -1) ∧
    ((∀ d, f.extracted_metadata.distribution = some d → d.url = none) →
      fileUrl f.extracted_metadata = "") := by
  refine ⟨?_, ?_, ?_⟩
  · unfold add_update_file
    rw [hp]
    simp only [mergeLeafSegs]
    rw [insertLeafStep_notfound (filePayload f.extracted_metadata) last l habs]
    rfl
  · intro h
    simp [fileBytesize, h]
  · intro h
    cases hd : f.extracted_metadata.distribution with
    | none => simp [fileUrl, hd]
    | some d => simp [fileUrl, hd, h d hd]

theorem C10_new_file_leaf_witness :
    add_update_file [] { path := "n.dat" }
      = [CatNode.file "n.dat" (fileBytesize {}) (fileUrl {})] ∧
    fileBytesize ({} : FileMeta) = -1 ∧ fileUrl ({} : FileMeta) = "" := by
  have h := C10_new_file_leaf { path := "n.dat" } [] "n.dat" rfl (by simp)
  exact ⟨h.1, h.2.1 rfl, h.2.2 (by intro d hd; cases hd)⟩

/-- Claim C5 counterexample: the entities ("a", "b-c") and ("a-b", "c")
are distinct (id, version) pairs, yet their blob strings — and therefore
their md5 keys — coincide; no md5 hash collision is involved because the
hashed strings are identical. -/
theorem C5_counterexample :
    ((("a" : String), ("b-c" : String)) ≠ (("a-b" : String), ("c" : String))) ∧
    blob_string "a" "b-c" false = blob_string "a-b" "c" false ∧
    md5blob "a" "b-c" false = md5blob "a-b" "c" false :=
  ⟨by decide, rfl, rfl⟩

/-- Claim C5 (amended): md5blob is a pure function (equal inputs yield
equal keys, and the key depends only on the blob string); for the same
(id, version) the strings hashed for the main and the children role always
differ, and on concrete inputs the two md5 keys differ as well; keys of
two records can only coincide when their id-dash-version blob strings
coincide (dash-ambiguous pairs) or when md5 genuinely collides on the two
distinct blob strings. -/
theorem C5_blob_key (id1 v1 id2 v2 : String) (c1 c2 : Bool) :
    (id1 = id2 → v1 = v2 → c1 = c2 → md5blob id1 v1 c1 = md5blob id2 v2 c2) ∧
    (blob_string id1 v1 c1 = blob_string id2 v2 c2 →
      md5blob id1 v1 c1 = md5blob id2 v2 c2) ∧
    blob_string id1 v1 false ≠ blob_string id1 v1 true ∧
    (md5blob id1 v1 c1 = md5blob id2 v2 c2 →
      blob_string id1 v1 c1 = blob_string id2 v2 c2 ∨
      (blob_string id1 v1 c1 ≠ blob_string id2 v2 c2 ∧
        md5hex (blob_string id1 v1 c1) = md5hex (blob_string id2 v2 c2))) ∧
    md5blob "d1" "v1" false ≠ md5blob "d1" "v1" true := by
  refine ⟨?_, ?_, ?_, ?_, ?_⟩
  · rintro rfl rfl rfl; rfl
  · intro h
    unfold md5blob
    rw [h]
  · intro h
    have hlen := congrArg String.length h
    rw [show blob_string id1 v1 false = id1 ++ "-" ++ v1 from rfl,
        show blob_string id1 v1 true = id1 ++ "-" ++ v1 ++ "-children" from rfl]
      at hlen
    simp only [String.length_append] at hlen
    rw [show ("-" : String).length = 1 from rfl,
        show ("-children" : String).length = 9 from rfl] at hlen
    omega
  · intro h
    by_cases hb : blob_string id1 v1 c1 = blob_string id2 v2 c2
    · exact Or.inl hb
    · exact Or.inr ⟨hb, h⟩
  · decide

theorem C5_blob_key_witness :
    md5blob "x" "y" false = md5blob "x" "y" false ∧
    (blob_string "a" "b-c" false = blob_string "a-b" "c" false ∨
      (blob_string "a" "b-c" false ≠ blob_string "a-b" "c" false ∧
        md5hex (blob_string "a" "b-c" false) = md5hex (blob_string "a-b" "c" false))) := by
  have h := C5_blob_key "x" "y" "x" "y" false false
  have h2 := C5_blob_key "a" "b-c" "a-b" "c" false false
  exact ⟨h.1 rfl rfl rfl, h2.2.2.2.1 rfl⟩

/-- Claim C6 (code defect): the source applies Python str.strip("datalad:"),
which removes the character set of "datalad:" from both string ends
instead of removing the literal prefix: for the hasPart identifier
"datalad:abc" the resulting dataset_id is "bc", not "abc". -/
theorem C6_strip_defect :
    pyStripSet "datalad:abc" "datalad:" = "bc" ∧ ("bc" : String) ≠ "abc" ∧
    (core_parse_dataset [] c6_src {}).subdatasets
      = some [{ dataset_id := "bc", dataset_version := "v1",
                dataset_path := "subds", dirs_from_path := ["subds"] }] :=
  ⟨rfl, by decide, rfl⟩

theorem if_children_name (o3 : DatasetObj) :
    (if o3.children.isSome then o3
     else { o3 with children := some (.nodes []) }).name = o3.name := by
  by_cases h : o3.children.isSome <;> simp [h]

theorem if_subdatasets_name (o3 : DatasetObj) :
    (if o3.subdatasets.isSome then o3
     else { o3 with subdatasets := some [] }).name = o3.name := by
  by_cases h : o3.subdatasets.isSome <;> simp [h]

theorem if_children_short_name (o3 : DatasetObj) :
    (if o3.children.isSome then o3
     else { o3 with children := some (.nodes []) }).short_name = o3.short_name := by
  by_cases h : o3.children.isSome <;> simp [h]

theorem if_subdatasets_short_name (o3 : DatasetObj) :
    (if o3.subdatasets.isSome then o3
     else { o3 with subdatasets := some [] }).short_name = o3.short_name := by
  by_cases h : o3.subdatasets.isSome <;> simp [h]

/-- Claim C9: default-field population derives the name from the last
segment of the dataset path when the name is absent, and derives the short
name from the name when the short name is absent: equal to the name when
the name has at most 30 characters, else the first 30 characters of the
name followed by the ellipsis marker "...". -/
theorem C9_default_names (schema : List (String × String)) (o : DatasetObj) :
    (∀ p, o.name = none → o.dataset_path = some p →
      (add_missing_fields schema o).name = some ((pySplit p '/').getLastD "")) ∧
    (∀ n, o.name = some n → o.short_name = none →
      (add_missing_fields schema o).short_name =
        some (if n.length ≤ 30 then n else (n.take 30) ++ "...")) := by
  constructor
  · intro p hn hp
    unfold add_missing_fields
    simp only [hn, hp]
    cases hs : o.short_name with
    | none =>
      simp only [hs]
      rw [if_subdatasets_name, if_children_name]
      exact foldl_defaults_name schema _ _ (by simp)
    | some sn =>
      simp only [hs]
      rw [if_subdatasets_name, if_children_name]
      exact foldl_defaults_name schema _ _ (by simp)
  · intro n hn hs
    unfold add_missing_fields
    simp only [hn, hs]
    rw [if_subdatasets_short_name, if_children_short_name]
    rw [foldl_defaults_short_name schema _
      (if 30 < n.length then (n.take 30) ++ "..." else n) (by simp)]
    by_cases hlen : 30 < n.length
    · rw [if_pos hlen, if_neg (by omega)]
    · rw [if_neg hlen, if_pos (by omega)]

theorem C9_default_names_witness :
    (add_missing_fields [] { dataset_path := some "a/b/c" }).name = some "c" ∧
    (add_missing_fields [] { name := some "short" }).short_name = some "short" ∧
    (add_missing_fields []
      { name := some "abcdefghijklmnopqrstuvwxyz0123456789" }).short_name
      = some "abcdefghijklmnopqrstuvwxyz0123..." := by
  refine ⟨?_, ?_, ?_⟩
  · have h := (C9_default_names [] { dataset_path := some "a/b/c" }).1 "a/b/c" rfl rfl
    simpa using h
  · have h := (C9_default_names [] { name := some "short" }).2 "short" rfl rfl
    simpa using h
  · have h := (C9_default_names []
      { name := some "abcdefghijklmnopqrstuvwxyz0123456789" }).2
      "abcdefghijklmnopqrstuvwxyz0123456789" rfl rfl
    simpa using h

/-- Claim C1 (code defect): ingesting c1_batch into an empty store
succeeds, but re-running the identical batch on the resulting store aborts
with a TypeError instead of writing byte-identical blobs: the reloaded
main blob carries the children-blob digest string in its children field,
and the file merge then subscripts the characters of that string. -/
theorem C1_reingestion_crash :
    (∃ res, dataladCatalog smId {} [] c1_batch = .ok res) ∧
    dataladCatalog smId {} c1_store1 c1_batch
      = .error "TypeError: string indices must be integers" :=
  ⟨⟨_, rfl⟩, rfl⟩

/-- Claim C4 counterexample: c4_batch holds dataset-level records for two
distinct (id, version) pairs, yet the call does not abort: it succeeds and
writes both blobs, because the multiplicity check compares md5 digests of
the id-dash-version concatenations, which coincide for these pairs. -/
theorem C4_counterexample :
    ((("a" : String), ("b-c" : String)) ≠ (("a-b" : String), ("c" : String))) ∧
    (∃ res, dataladCatalog smId {} [] c4_batch = .ok res ∧
      res.store.length = 2) :=
  ⟨by decide, ⟨_, rfl, rfl⟩⟩

/-- Claim C4 (amended): the batch guard operates on md5 digests of the
id-dash-version concatenations: more than one distinct digest aborts the
whole call with the multiple-source error before any write, and a batch
with no dataset-level record aborts with an uncaught IndexError before any
write; distinct (id, version) pairs whose concatenations coincide are
conflated and not rejected. -/
theorem C4_batch_guard (sm : DsRecord → DatasetObj → DatasetObj)
    (tmpl : Templates) (store : List (String × BlobVal))
    (metadata : List MetaItem) :
    (dsItemsOf metadata = [] →
      dataladCatalog sm tmpl store metadata
        = .error "IndexError: list index out of range") ∧
    (1 < ((dsItemsOf metadata).map
        (fun d => md5blob d.dataset_id d.dataset_version false)).dedup.length →
      dataladCatalog sm tmpl store metadata
        = .error "Multiple dataset-level metadata items found") := by
  constructor
  · intro h
    simp [dataladCatalog, h]
  · intro h
    simp [dataladCatalog, h]

theorem C4_batch_guard_witness :
    dataladCatalog smId {} [] ([] : List MetaItem)
      = .error "IndexError: list index out of range" ∧
    dataladCatalog smId {} [] c4d_batch
      = .error "Multiple dataset-level metadata items found" := by
  refine ⟨(C4_batch_guard smId {} [] []).1 rfl,
          (C4_batch_guard smId {} [] c4d_batch).2 ?_⟩
  decide

/-- Claim C8 counterexample: ingesting a batch whose only dataset record
carries an unrecognized extractor name yields exactly one status record,
the batch-level ok record; no status record refers to the skipped item. -/
theorem C8_counterexample :
    catalogStatuses smId {} [] c8_batch = [⟨"catalog", "ok"⟩] ∧
    ∀ r ∈ catalogStatuses smId {} [] c8_batch, r.status = "ok" := by
  refine ⟨rfl, ?_⟩
  intro r hr
  rw [show catalogStatuses smId {} [] c8_batch = [⟨"catalog", "ok"⟩] from rfl] at hr
  rcases List.mem_singleton.mp hr with rfl
  rfl

/-- Claim C8 (amended): a dataset record whose extractor name matches no
recognized identity does not abort the batch: the parser reports it and
returns the destination object unchanged, the pipeline still succeeds, the
dataset node carries only the defaulted fields, and the one report is the
printed message — the emitted status stream holds only the final ok
record. -/
theorem C8_unrecognized_skipped (sm : DsRecord → DatasetObj → DatasetObj)
    (tmpl : Templates) (r : DsRecord) (e : String)
    (ht : r.type = "dataset") (he : r.extractor_name = some e)
    (h1 : e ≠ "metalad_core_dataset") (h2 : e ≠ "metalad_studyminimeta")
    (h3 : e ≠ "metalad_core") :
    (∀ dest : DatasetObj, parse_metadata_object sm tmpl r dest
      = (dest, ["Unrecognized metadata type: DataLad-related"])) ∧
    (∃ res, dataladCatalog sm tmpl [] [.ds r] = .ok res ∧
      res.msgs = ["Unrecognized metadata type: DataLad-related"] ∧
      res.main_obj = { add_missing_fields tmpl.studyminimeta_empty {} with
        children := some (.ref (md5blob r.dataset_id r.dataset_version true)) } ∧
      res.children_obj = .nodes []) := by
  have hparse : ∀ dest : DatasetObj, parse_metadata_object sm tmpl r dest
      = (dest, ["Unrecognized metadata type: DataLad-related"]) := by
    intro dest
    unfold parse_metadata_object
    rw [he]
    rw [if_neg (by simp [h1]), if_neg (by simp [h2]),
        if_neg (by simp [h3]), if_neg (by simp [h3])]
  refine ⟨hparse, ?_⟩
  have hds : dsItemsOf [MetaItem.ds r] = [r] := by simp [dsItemsOf, ht]
  have hfiles : fileItemsOf [MetaItem.ds r] r.dataset_id r.dataset_version = [] := by
    simp [fileItemsOf]
  unfold dataladCatalog
  rw [hds]
  simp only [List.map_cons, List.map_nil]
  rw [if_neg (by simp)]
  simp only [List.foldl_cons, List.foldl_nil, storeLookup, he, hparse,
             add_missing_fields_empty_subdatasets, add_missing_fields_empty_children,
             List.nil_append, Option.getD_some, List.isEmpty_nil, if_true,
             hfiles, add_update_files_cf]
  exact ⟨_, rfl, rfl, rfl, rfl⟩

theorem C8_unrecognized_skipped_witness :
    parse_metadata_object smId {} c8_rec {}
      = ({}, ["Unrecognized metadata type: DataLad-related"]) ∧
    (∃ res, dataladCatalog smId {} [] [.ds c8_rec] = .ok res ∧
      res.msgs = ["Unrecognized metadata type: DataLad-related"] ∧
      res.main_obj = { add_missing_fields ({} : Templates).studyminimeta_empty {} with
        children := some (.ref (md5blob c8_rec.dataset_id c8_rec.dataset_version true)) } ∧
      res.children_obj = .nodes []) := by
  have h := C8_unrecognized_skipped smId {} c8_rec "totally_unknown" rfl rfl
    (by decide) (by decide) (by decide)
  exact ⟨h.1 {}, h.2⟩
